import Mathlib

/-!
Verification of the finalstore reactive state container.

This file is a shallow embedding of the subscription/notification core of
the repository: the value store engine (packages/store/src/store.tsx), the
collection engine (createCollection) and the structural equality utility
isDeepEqual. JavaScript runtime values are modelled by the inductive JSVal;
JavaScript objects that matter only through their structure are modelled as
association lists of fields, and the places where reference aliasing is
observable (the shallow spread clone used by dispatch and by the
constructor) are modelled separately with an explicit heap.
-/

namespace Finalstore

-- =====================
-- JavaScript values
-- =====================

/-- JavaScript runtime values, as far as the engine observes them: the
primitives (with NaN kept apart from ordinary numbers, since === and
Object.is disagree on it), arrays, and plain objects as field lists. -/
inductive JSVal where
  | vUndefined : JSVal
  | vNull : JSVal
  | vBool : Bool → JSVal
  | vNum : Int → JSVal
  | vNaN : JSVal
  | vStr : String → JSVal
  | vArr : List JSVal → JSVal
  | vObj : List (String × JSVal) → JSVal

mutual

/-- boolean structural equality of values, used to build decidable
equality for the nested inductive JSVal. -/
def jsBeq : JSVal → JSVal → Bool
  | .vUndefined, .vUndefined => true
  | .vNull, .vNull => true
  | .vBool x, .vBool y => x == y
  | .vNum x, .vNum y => x == y
  | .vNaN, .vNaN => true
  | .vStr x, .vStr y => x == y
  | .vArr xs, .vArr ys => jsBeqList xs ys
  | .vObj fs, .vObj gs => jsBeqFields fs gs
  | _, _ => false

/-- boolean structural equality on lists of values. -/
def jsBeqList : List JSVal → List JSVal → Bool
  | [], [] => true
  | x :: xs, y :: ys => jsBeq x y && jsBeqList xs ys
  | _, _ => false

/-- boolean structural equality on field lists. -/
def jsBeqFields : List (String × JSVal) → List (String × JSVal) → Bool
  | [], [] => true
  | (k, v) :: fs, (k2, w) :: gs => k == k2 && jsBeq v w && jsBeqFields fs gs
  | _, _ => false

end

mutual

theorem jsBeq_refl : ∀ a : JSVal, jsBeq a a = true
  | .vUndefined => rfl
  | .vNull => rfl
  | .vBool x => by simp [jsBeq]
  | .vNum x => by simp [jsBeq]
  | .vNaN => rfl
  | .vStr x => by simp [jsBeq]
  | .vArr xs => jsBeqList_refl xs
  | .vObj fs => jsBeqFields_refl fs

theorem jsBeqList_refl : ∀ xs : List JSVal, jsBeqList xs xs = true
  | [] => rfl
  | x :: xs => by
      simp only [jsBeqList, Bool.and_eq_true]
      exact ⟨jsBeq_refl x, jsBeqList_refl xs⟩

theorem jsBeqFields_refl : ∀ fs : List (String × JSVal), jsBeqFields fs fs = true
  | [] => rfl
  | (k, v) :: fs => by
      simp only [jsBeqFields, Bool.and_eq_true, beq_self_eq_true, true_and]
      exact ⟨jsBeq_refl v, jsBeqFields_refl fs⟩

end

mutual

theorem jsBeq_sound : ∀ a b : JSVal, jsBeq a b = true → a = b
  | .vUndefined, .vUndefined, _ => rfl
  | .vNull, .vNull, _ => rfl
  | .vBool x, .vBool y, h => by
      simp only [jsBeq, beq_iff_eq] at h; exact h ▸ rfl
  | .vNum x, .vNum y, h => by
      simp only [jsBeq, beq_iff_eq] at h; exact h ▸ rfl
  | .vNaN, .vNaN, _ => rfl
  | .vStr x, .vStr y, h => by
      simp only [jsBeq, beq_iff_eq] at h; exact h ▸ rfl
  | .vArr xs, .vArr ys, h => by
      rw [jsBeqList_sound xs ys h]
  | .vObj fs, .vObj gs, h => by
      rw [jsBeqFields_sound fs gs h]

theorem jsBeqList_sound : ∀ xs ys : List JSVal, jsBeqList xs ys = true → xs = ys
  | [], [], _ => rfl
  | x :: xs, y :: ys, h => by
      simp only [jsBeqList, Bool.and_eq_true] at h
      rw [jsBeq_sound x y h.1, jsBeqList_sound xs ys h.2]

theorem jsBeqFields_sound :
    ∀ fs gs : List (String × JSVal), jsBeqFields fs gs = true → fs = gs
  | [], [], _ => rfl
  | (k, v) :: fs, (k2, w) :: gs, h => by
      simp only [jsBeqFields, Bool.and_eq_true, beq_iff_eq] at h
      rw [h.1.1, jsBeq_sound v w h.1.2, jsBeqFields_sound fs gs h.2]

end

instance : DecidableEq JSVal := fun a b =>
  decidable_of_iff (jsBeq a b = true)
    ⟨jsBeq_sound a b, fun h => h ▸ jsBeq_refl a⟩

/-- typeof of a value, as the JavaScript operator reports it (typeof null
is the string object). -/
def jsTypeof : JSVal → String
  | .vUndefined => "undefined"
  | .vNull => "object"
  | .vBool _ => "boolean"
  | .vNum _ => "number"
  | .vNaN => "number"
  | .vStr _ => "string"
  | .vArr _ => "object"
  | .vObj _ => "object"

/-- loose equality against null, that is the test a == null, true exactly
for null and undefined. -/
def isNullish : JSVal → Bool
  | .vUndefined => true
  | .vNull => true
  | _ => false

/-- falsiness of a value, the JavaScript test if (!x): undefined, null,
false, 0, NaN and the empty string are falsy, everything else truthy. -/
def isFalsy : JSVal → Bool
  | .vUndefined => true
  | .vNull => true
  | .vBool b => !b
  | .vNum n => n == 0
  | .vNaN => true
  | .vStr s => s == ""
  | .vArr _ => false
  | .vObj _ => false

/-- strict equality a === b, restricted to what a pure value model can
decide. On primitives it is value equality with NaN not equal to itself.
On objects and arrays JavaScript compares references, which a value model
cannot observe; answering false there is sound inside isDeepEqual, because
a reference-equal pair of acyclic objects is also structurally equal, so
the final result of isDeepEqual is unchanged. -/
def strictEqPrim : JSVal → JSVal → Bool
  | .vUndefined, .vUndefined => true
  | .vNull, .vNull => true
  | .vBool x, .vBool y => x == y
  | .vNum x, .vNum y => x == y
  | .vStr x, .vStr y => x == y
  | _, _ => false

/-- Object.is on the values that can reach it inside isDeepEqual: the same
as strict equality except that Object.is treats NaN as equal to itself. -/
def objectIs : JSVal → JSVal → Bool
  | .vNaN, .vNaN => true
  | a, b => strictEqPrim a b

/-- lookup of the first binding of a key in an association list, the model
of reading a field of a plain object or an entry of a Map. -/
def mapGet {α : Type} : List (String × α) → String → Option α
  | [], _ => none
  | (k, v) :: rest, key => if k = key then some v else mapGet rest key

/-- membership test for a key, the model of Map.has / hasOwnProperty. -/
def mapHas {α : Type} (m : List (String × α)) (key : String) : Bool :=
  (mapGet m key).isSome

mutual

/-- structural deep equality, the embedding of isDeepEqual from
packages/store/src/store.tsx lines 130 to 171: reference or primitive
identity short-circuits, a nullish operand on one side only gives false,
differing typeof gives false, non-objects are compared with Object.is,
arrays element-wise with a length check, one array against a non-array is
false, and plain objects by key count plus per-key recursion through
hasOwnProperty. -/
def isDeepEqual (a b : JSVal) : Bool :=
  if strictEqPrim a b then true
  else if isNullish a || isNullish b then false
  else if ¬ (jsTypeof a = jsTypeof b) then false
  else if ¬ (jsTypeof a = "object") then objectIs a b
  else match a, b with
    | .vArr xs, .vArr ys => xs.length == ys.length && deepEqualElems xs ys
    | .vArr _, _ => false
    | _, .vArr _ => false
    | .vObj fa, .vObj fb => fa.length == fb.length && deepEqualFields fa fb
    | _, _ => false

/-- element-wise recursion of isDeepEqual over two arrays of equal length. -/
def deepEqualElems : List JSVal → List JSVal → Bool
  | [], _ => true
  | _ :: _, [] => false
  | x :: xs, y :: ys => isDeepEqual x y && deepEqualElems xs ys

/-- per-key recursion of isDeepEqual over the fields of the first object,
each looked up in the second through hasOwnProperty. -/
def deepEqualFields (fa fb : List (String × JSVal)) : Bool :=
  match fa with
  | [] => true
  | (k, v) :: rest =>
    (match mapGet fb k with
     | some w => isDeepEqual v w
     | none => false) && deepEqualFields rest fb

end

-- =====================
-- Map and object helpers
-- =====================

/-- insertion of a binding, the model of Map.set and of assignment to an
object field: an existing key is overwritten in place, a new key is
appended, so enumeration order is insertion order. -/
def mapSet {α : Type} : List (String × α) → String → α → List (String × α)
  | [], key, v => [(key, v)]
  | (k, w) :: rest, key, v =>
      if k = key then (key, v) :: rest else (k, w) :: mapSet rest key v

/-- deletion of the first binding of a key, the model of Map.delete. -/
def mapDelete {α : Type} : List (String × α) → String → List (String × α)
  | [], _ => []
  | (k, w) :: rest, key =>
      if k = key then rest else (k, w) :: mapDelete rest key

/-- enumeration of the keys in insertion order, the model of
Array.from(map.keys()). -/
def mapKeys {α : Type} (m : List (String × α)) : List String :=
  m.map Prod.fst

/-- lifting of a key list to the JavaScript array of strings that the keys
observers compare with isDeepEqual. -/
def strArr (ks : List String) : JSVal :=
  JSVal.vArr (ks.map JSVal.vStr)

-- =====================
-- Value store engine (pure value level)
-- =====================

/-- registered observer of the value store: the subscribers map entries of
createStore hold a selector, a callback and the cached lastValue; the
callback is opaque to the engine, so it is modelled by the count of times
it has been invoked. -/
structure Subscriber where
  selector : JSVal → JSVal
  lastValue : JSVal
  fired : Nat

/-- state of one value store instance: the current states record, the
initialStates snapshot taken at construction, the named actions map and
the subscriber registry. An action body receives the draft record and is
modelled by the value transformation it performs on it together with the
value it returns, or the exception it throws; the payload of the action is
already folded into the body function. -/
structure StoreV where
  states : JSVal
  initialStates : JSVal
  actions : List (String × (JSVal → Except String (JSVal × JSVal)))
  subs : List Subscriber

/-- synchronous read of the current state, the model of get(). -/
def getV (st : StoreV) : JSVal :=
  st.states

/-- notification step for one subscriber, from notify() in store.tsx lines
271 to 282: compute newValue through the selector on the current state,
and if it is not deep-equal to lastValue, store it and invoke the
callback; otherwise leave the subscriber untouched. -/
def notifyStep (s : JSVal) (o : Subscriber) : Subscriber :=
  let newValue := o.selector s
  if isDeepEqual newValue o.lastValue then o
  else { o with lastValue := newValue, fired := o.fired + 1 }

/-- full notification pass of the value store over every subscriber. -/
def notifyV (st : StoreV) : StoreV :=
  { st with subs := st.subs.map (notifyStep st.states) }

/-- registration of an observer, from subscribe(): the initial lastValue
is computed eagerly from the current state, with the identity as the
default selector. -/
def subscribeV (st : StoreV) (sel : JSVal → JSVal) : StoreV :=
  { st with subs := st.subs ++ [{ selector := sel, lastValue := sel st.states, fired := 0 }] }

/-- dispatch of a named action, from store.tsx lines 350 to 376: an
unregistered name returns immediately (the code is
if typeof cb is not function then return, with no throw), otherwise the
current record is cloned into a draft, the body runs on the draft, a
thrown or rejected body propagates without committing, and on success the
draft is committed, the notification pass runs when shouldNotify is true,
and the promise resolves with undefined because the function body never
returns the result. -/
def dispatchV (st : StoreV) (name : String) (shouldNotify : Bool) :
    Except String (StoreV × JSVal) :=
  match mapGet st.actions name with
  | none => .ok (st, JSVal.vUndefined)
  | some cb =>
    match cb st.states with
    | .error e => .error e
    | .ok (draft, _result) =>
      let st1 := { st with states := draft }
      let st2 := if shouldNotify then notifyV st1 else st1
      .ok (st2, JSVal.vUndefined)

/-- reset of the value store, from store.tsx lines 378 to 390: the current
record is replaced with a copy of the initial snapshot and the
notification pass runs only when the previous record is not deep-equal to
the restored one. -/
def resetV (st : StoreV) : StoreV :=
  let prevStates := st.states
  let st1 := { st with states := st.initialStates }
  if isDeepEqual prevStates st1.states then st1 else notifyV st1

-- =====================
-- Asynchronous dispatch, phase by phase
-- =====================

/-- asynchronous action body split at its single await point: the pre part
runs synchronously on the draft when dispatch invokes the body, the post
part runs when the awaited promise resolves. -/
structure AsyncBody where
  pre : JSVal → JSVal
  post : JSVal → JSVal

/-- in-flight dispatch suspended at the await: the draft is held privately
by the dispatch call together with the remainder of the body. -/
structure PendingDispatch where
  draft : JSVal
  post : JSVal → JSVal

/-- synchronous portion of an asynchronous dispatch: the current record is
cloned into the draft, the body runs up to the await, and the dispatch
suspends; the store itself is untouched, since commit and notification sit
after the await in store.tsx lines 362 to 375. -/
def startAsyncDispatch (st : StoreV) (body : AsyncBody) : StoreV × PendingDispatch :=
  (st, { draft := body.pre st.states, post := body.post })

/-- resumption of an asynchronous dispatch once its promise resolves: the
remainder of the body finishes on the draft, the draft is committed, and
only then does the notification pass run. -/
def resolveAsyncDispatch (st : StoreV) (p : PendingDispatch) (shouldNotify : Bool) : StoreV :=
  let committed := p.post p.draft
  let st1 := { st with states := committed }
  if shouldNotify then notifyV st1 else st1

-- =====================
-- Collection engine
-- =====================

/-- key-scoped observer of the collection, one entry of the
subscribers.byKey buckets of createCollection. -/
structure KeyObs where
  selector : JSVal → JSVal
  lastValue : JSVal
  fired : Nat

/-- size observer: its selector is the fixed function returning
states.size, so only the cached number and the invocation count remain. -/
structure SizeObs where
  lastValue : Nat
  fired : Nat

/-- keys observer: its selector is the fixed function returning
Array.from(states.keys()), so only the cached key list and the invocation
count remain. -/
structure KeysObs where
  lastValue : List String
  fired : Nat

/-- state of one collection instance from createCollection: the backing
entries map in insertion order, the initialMap kept for reset, the named
actions (payload folded into the body, as for the value store) and the
three observer registries. -/
structure Collection where
  entries : List (String × JSVal)
  initialMap : List (String × JSVal)
  actions : List (String × (JSVal → Except String (JSVal × JSVal)))
  subsByKey : List (String × List KeyObs)
  subsSize : List SizeObs
  subsKeys : List KeysObs

/-- the observer record built by subscribeToKey: when the entry is present
and truthy, lastValue is the selector applied to it; otherwise the guard
state question-mark selector(state) colon undefined caches undefined
without ever invoking the selector. -/
def mkKeyObs (col : Collection) (k : String) (sel : JSVal → JSVal) : KeyObs :=
  { selector := sel
    lastValue :=
      match mapGet col.entries k with
      | some st => if isFalsy st then JSVal.vUndefined else sel st
      | none => JSVal.vUndefined
    fired := 0 }

/-- registration of a key-scoped observer, from subscribeToKey: the bucket
for the key is created if missing and the new observer is appended. -/
def subscribeToKeyC (col : Collection) (k : String) (sel : JSVal → JSVal) : Collection :=
  let bucket := (mapGet col.subsByKey k).getD []
  { col with subsByKey := mapSet col.subsByKey k (bucket ++ [mkKeyObs col k sel]) }

/-- notification step for one key-scoped observer against the entry
record. -/
def notifyKeyObsStep (s : JSVal) (o : KeyObs) : KeyObs :=
  let newValue := o.selector s
  if isDeepEqual newValue o.lastValue then o
  else { o with lastValue := newValue, fired := o.fired + 1 }

/-- per-key notification pass, from notifyKeySubscribers: when the key has
no bucket the pass returns at once, and when states.get(key) is absent or
falsy the guard if not state return also exits before touching any
observer; otherwise each observer in the bucket runs the deep-equality
guarded step. -/
def notifyKeySubscribersC (col : Collection) (k : String) : Collection :=
  match mapGet col.subsByKey k with
  | none => col
  | some bucket =>
    match mapGet col.entries k with
    | none => col
    | some st =>
      if isFalsy st then col
      else
        { col with subsByKey := mapSet col.subsByKey k (bucket.map (notifyKeyObsStep st)) }

/-- bulk key notification, from notifyAllKeySubscribers: every observer in
every bucket has its callback invoked unconditionally, with no selector
evaluation, no deep-equality comparison and no lastValue update. -/
def notifyAllKeySubscribersC (col : Collection) : Collection :=
  { col with
    subsByKey :=
      col.subsByKey.map (fun kv => (kv.1, kv.2.map (fun o => { o with fired := o.fired + 1 }))) }

/-- size notification pass, from notifySizeSubscribers: each observer
fires when the current size differs (strict inequality on numbers) from
its cached value, updating the cache. -/
def notifySizeSubscribersC (col : Collection) : Collection :=
  { col with
    subsSize :=
      col.subsSize.map (fun o =>
        if col.entries.length = o.lastValue then o
        else { lastValue := col.entries.length, fired := o.fired + 1 }) }

/-- keys notification pass, from notifyKeysSubscribers: each observer
fires when the current key array is not deep-equal to its cached array,
updating the cache. -/
def notifyKeysSubscribersC (col : Collection) : Collection :=
  let currentKeys := mapKeys col.entries
  { col with
    subsKeys :=
      col.subsKeys.map (fun o =>
        if isDeepEqual (strArr currentKeys) (strArr o.lastValue) then o
        else { lastValue := currentKeys, fired := o.fired + 1 }) }

/-- insertion or overwrite, from set in the collection engine: the entry
is stored, the per-key pass always runs, and the size and keys passes run
only when the key did not exist before. -/
def setC (col : Collection) (k : String) (v : JSVal) : Collection :=
  let hadKey := mapHas col.entries k
  let col1 := { col with entries := mapSet col.entries k v }
  let col2 := notifyKeySubscribersC col1 k
  if hadKey then col2
  else notifyKeysSubscribersC (notifySizeSubscribersC col2)

/-- deletion, from remove in the collection engine: when the key existed,
the per-key, size and keys passes all run, in that order, after the entry
has already been deleted. -/
def removeC (col : Collection) (k : String) : Collection :=
  let hadKey := mapHas col.entries k
  let col1 := { col with entries := mapDelete col.entries k }
  if hadKey then
    notifyKeysSubscribersC (notifySizeSubscribersC (notifyKeySubscribersC col1 k))
  else col1

/-- clearing, from clear in the collection engine: the map is emptied and,
when it was non-empty, the bulk key pass plus the size and keys passes
run. -/
def clearC (col : Collection) : Collection :=
  let wasEmpty := col.entries.isEmpty
  let col1 := { col with entries := [] }
  if wasEmpty then col1
  else notifyKeysSubscribersC (notifySizeSubscribersC (notifyAllKeySubscribersC col1))

/-- reset, from reset in the collection engine: the entries are replaced
by a copy of the initialMap and, when either side was non-empty, the bulk
key pass plus the size and keys passes run. -/
def resetC (col : Collection) : Collection :=
  let hadItems := ¬ col.entries.isEmpty
  let hasInitialItems := ¬ col.initialMap.isEmpty
  let col1 := { col with entries := col.initialMap }
  if hadItems ∨ hasInitialItems then
    notifyKeysSubscribersC (notifySizeSubscribersC (notifyAllKeySubscribersC col1))
  else col1

/-- per-key dispatch, from dispatch in the collection engine lines 383 to
416: a missing or falsy entry throws Key not found, a missing action name
throws Action not found, otherwise the entry is cloned into a draft, the
body runs (a rejection propagates without committing), the draft is
committed into the map, the per-key pass runs when shouldNotify is true,
and the call resolves with the final result of the body. -/
def dispatchC (col : Collection) (k : String) (name : String) (shouldNotify : Bool) :
    Except String (Collection × JSVal) :=
  match mapGet col.entries k with
  | none => .error ("Key " ++ k ++ " not found")
  | some st =>
    if isFalsy st then .error ("Key " ++ k ++ " not found")
    else
      match mapGet col.actions name with
      | none => .error ("Action " ++ name ++ " not found")
      | some cb =>
        match cb st with
        | .error e => .error e
        | .ok (draft, finalResult) =>
          let col1 := { col with entries := mapSet col.entries k draft }
          let col2 := if shouldNotify then notifyKeySubscribersC col1 k else col1
          .ok (col2, finalResult)

-- =====================
-- Heap model of the shallow spread clone
-- =====================

/-- field value of a heap object: either a primitive, stored directly, or
a reference to another heap object. The heap makes the aliasing created by
the shallow spread clone in createStore and dispatch observable. -/
inductive HVal where
  | prim : JSVal → HVal
  | ref : Nat → HVal
deriving DecidableEq

/-- heap object, the field list of one JavaScript object. -/
abbrev HObj := List (String × HVal)

/-- heap: the objects in allocation order, an address being an index. -/
abbrev Heap := List HObj

/-- read of the object at an address, empty for unallocated addresses. -/
def hget (h : Heap) (a : Nat) : HObj :=
  h.getD a []

/-- in-place replacement of the object at an address. -/
def hsetObj (h : Heap) (a : Nat) (o : HObj) : Heap :=
  h.set a o

/-- allocation of a fresh object at the end of the heap. -/
def halloc (h : Heap) (o : HObj) : Nat × Heap :=
  (h.length, h ++ [o])

/-- the shallow spread clone: a fresh object whose field list is copied
from the source, so references held in fields keep pointing at the same
shared targets. -/
def shallowCopy (h : Heap) (a : Nat) : Nat × Heap :=
  halloc h (hget h a)

mutual

/-- reification of a heap value into the structural value a caller of the
engine observes, with a recursion-depth budget: cyclic structures are a
documented non-goal and simply exhaust the budget. -/
def resolveH : Nat → Heap → HVal → Option JSVal
  | 0, _, _ => none
  | _ + 1, _, .prim p => some p
  | fuel + 1, h, .ref a => (resolveFields fuel h (hget h a)).map JSVal.vObj
termination_by fuel _ _ => (fuel, 0)

/-- reification of the fields of a heap object. -/
def resolveFields : Nat → Heap → HObj → Option (List (String × JSVal))
  | _, _, [] => some []
  | fuel, h, (k, v) :: rest =>
    match resolveH fuel h v, resolveFields fuel h rest with
    | some w, some ws => some ((k, w) :: ws)
    | _, _ => none
termination_by fuel _ o => (fuel, o.length + 1)

end

/-- the heap-level view of one value store: the heap, the address of the
initialStates snapshot and the address of the current states record. -/
structure HStore where
  heap : Heap
  initialAddr : Nat
  currentAddr : Nat

/-- construction of a value store over a heap holding the caller record at
statesAddr, from createStore lines 184 and 185: initialStates is a shallow
spread of props.states and states a shallow spread of initialStates, so
both copies share every nested object with the caller record. -/
def createStoreH (h : Heap) (statesAddr : Nat) : HStore :=
  let (ia, h1) := shallowCopy h statesAddr
  let (ca, h2) := shallowCopy h1 ia
  { heap := h2, initialAddr := ia, currentAddr := ca }

/-- heap-level action body: it receives the heap and the draft address,
performs its mutations (which the heap records wherever they land), and
either finishes or throws; the resulting heap is kept in both cases, since
a JavaScript exception does not roll back mutations already made. -/
abbrev HBody := Heap → Nat → Heap × Option String

/-- heap-level dispatch, from store.tsx lines 350 to 376: the current
record is cloned by shallow spread into a fresh draft, the body runs on
the draft, and the draft becomes the current record only when the body did
not throw; a throw propagates and skips the commit, but every heap
mutation the body performed before throwing remains. -/
def dispatchH (st : HStore) (body : HBody) : HStore × Option String :=
  let (d, h1) := shallowCopy st.heap st.currentAddr
  let (h2, err) := body h1 d
  match err with
  | some e => ({ st with heap := h2 }, some e)
  | none => ({ heap := h2, initialAddr := st.initialAddr, currentAddr := d }, none)

/-- sequential dispatch of a list of action bodies, each cloning from
whatever the current record is when it runs. -/
def dispatchSeq (st : HStore) : List HBody → HStore
  | [] => st
  | b :: bs => dispatchSeq (dispatchH st b).1 bs

/-- heap-level reset, from store.tsx lines 378 to 390: the current record
becomes a fresh shallow spread of the initialStates snapshot. -/
def resetH (st : HStore) : HStore :=
  let (c, h1) := shallowCopy st.heap st.initialAddr
  { heap := h1, initialAddr := st.initialAddr, currentAddr := c }

/-- heap-level get(): the current record reified to the structural value
the caller observes. -/
def getH (fuel : Nat) (st : HStore) : Option JSVal :=
  resolveH fuel st.heap (.ref st.currentAddr)

/-- well-formedness of a heap: every reference stored in any object points
at an allocated address. -/
def WfHeap (h : Heap) : Prop :=
  ∀ a, ∀ kv ∈ hget h a, ∀ r, kv.2 = HVal.ref r → r < h.length

/-- action bodies that touch only their own draft object: every address
other than the draft reads the same before and after, and the heap never
shrinks. This is the heap-level description of an action that assigns only
top-level fields of its draft, never mutating a shared nested object in
place. -/
def DraftOnly (body : HBody) : Prop :=
  ∀ h d, h.length ≤ (body h d).1.length ∧
    ∀ a, a < h.length → a ≠ d → hget (body h d).1 a = hget h a

-- =====================
-- Helper lemmas about the map model
-- =====================

theorem mapGet_mapSet_self {α : Type} (m : List (String × α)) (k : String) (v : α) :
    mapGet (mapSet m k v) k = some v := by
  induction m with
  | nil => simp [mapSet, mapGet]
  | cons kv rest ih =>
    obtain ⟨k2, w⟩ := kv
    by_cases h : k2 = k
    · simp [mapSet, mapGet, h]
    · simp [mapSet, mapGet, h, ih]

theorem mapGet_mapSet_ne {α : Type} (m : List (String × α)) (k k2 : String) (v : α)
    (h : k2 ≠ k) : mapGet (mapSet m k v) k2 = mapGet m k2 := by
  induction m with
  | nil => simp [mapSet, mapGet, Ne.symm h]
  | cons kv rest ih =>
    obtain ⟨k3, w⟩ := kv
    by_cases h3 : k3 = k
    · subst h3
      simp [mapSet, mapGet, Ne.symm h]
    · simp [mapSet, mapGet, h3, ih]

theorem length_mapSet_not_has {α : Type} (m : List (String × α)) (k : String) (v : α)
    (h : mapHas m k = false) : (mapSet m k v).length = m.length + 1 := by
  induction m with
  | nil => simp [mapSet]
  | cons kv rest ih =>
    obtain ⟨k2, w⟩ := kv
    have h2 : k2 ≠ k := by
      intro hh
      simp [mapHas, mapGet, hh] at h
    have hrest : mapHas rest k = false := by
      simpa [mapHas, mapGet, h2] using h
    simp [mapSet, h2, ih hrest]

theorem mapKeys_mapSet_not_has {α : Type} (m : List (String × α)) (k : String) (v : α)
    (h : mapHas m k = false) : mapKeys (mapSet m k v) = mapKeys m ++ [k] := by
  induction m with
  | nil => simp [mapSet, mapKeys]
  | cons kv rest ih =>
    obtain ⟨k2, w⟩ := kv
    have h2 : k2 ≠ k := by
      intro hh
      simp [mapHas, mapGet, hh] at h
    have hrest : mapHas rest k = false := by
      simpa [mapHas, mapGet, h2] using h
    simp [mapSet, h2, mapKeys, ih hrest]
    simpa [mapKeys] using ih hrest

theorem mapHas_of_mapGet_some {α : Type} {m : List (String × α)} {k : String} {v : α}
    (h : mapGet m k = some v) : mapHas m k = true := by
  simp [mapHas, h]

theorem length_mapDelete_has {α : Type} (m : List (String × α)) (k : String)
    (h : mapHas m k = true) : m.length = (mapDelete m k).length + 1 := by
  induction m with
  | nil => simp [mapHas, mapGet] at h
  | cons kv rest ih =>
    obtain ⟨k2, w⟩ := kv
    by_cases h2 : k2 = k
    · simp [mapDelete, h2]
    · have : mapHas rest k = true := by
        simpa [mapHas, mapGet, h2] using h
      simp only [mapDelete, if_neg h2, List.length_cons]
      rw [ih this]

theorem mapGet_eq_none_of_not_mem {α : Type} (m : List (String × α)) (k : String)
    (h : k ∉ mapKeys m) : mapGet m k = none := by
  induction m with
  | nil => rfl
  | cons kv rest ih =>
    obtain ⟨k2, w⟩ := kv
    simp only [mapKeys, List.map_cons, List.mem_cons] at h
    push_neg at h
    simp only [mapGet]
    rw [if_neg (fun hh => h.1 hh.symm)]
    exact ih (by simpa [mapKeys] using h.2)

theorem mapGet_mapDelete_self_of_nodup {α : Type} (m : List (String × α)) (k : String)
    (h : (mapKeys m).Nodup) : mapGet (mapDelete m k) k = none := by
  induction m with
  | nil => rfl
  | cons kv rest ih =>
    obtain ⟨k2, w⟩ := kv
    simp only [mapKeys, List.map_cons, List.nodup_cons] at h
    by_cases h2 : k2 = k
    · subst h2
      simp only [mapDelete, if_pos rfl]
      exact mapGet_eq_none_of_not_mem rest k2 (by simpa [mapKeys] using h.1)
    · simp only [mapDelete, if_neg h2, mapGet, if_neg h2]
      exact ih (by simpa [mapKeys] using h.2)

-- =====================
-- Helper lemmas about isDeepEqual on key arrays
-- =====================

theorem strictEqPrim_arr (xs ys : List JSVal) :
    strictEqPrim (.vArr xs) (.vArr ys) = false := rfl

theorem isNullish_arr (xs : List JSVal) : isNullish (.vArr xs) = false := rfl

theorem jsTypeof_arr (xs : List JSVal) : jsTypeof (.vArr xs) = "object" := rfl

theorem isDeepEqual_arr (xs ys : List JSVal) :
    isDeepEqual (.vArr xs) (.vArr ys) = (xs.length == ys.length && deepEqualElems xs ys) := by
  rw [isDeepEqual]
  simp [strictEqPrim_arr, isNullish_arr, jsTypeof_arr]

theorem isDeepEqual_strArr_length_ne (xs ys : List String) (h : xs.length ≠ ys.length) :
    isDeepEqual (strArr xs) (strArr ys) = false := by
  rw [strArr, strArr, isDeepEqual_arr]
  simp [h]

-- =====================
-- Helper lemmas about the collection notification passes
-- =====================

theorem notifyKeySubscribersC_entries (col : Collection) (k : String) :
    (notifyKeySubscribersC col k).entries = col.entries := by
  unfold notifyKeySubscribersC
  repeat' split
  all_goals rfl

theorem notifyKeySubscribersC_subsSize (col : Collection) (k : String) :
    (notifyKeySubscribersC col k).subsSize = col.subsSize := by
  unfold notifyKeySubscribersC
  repeat' split
  all_goals rfl

theorem notifyKeySubscribersC_subsKeys (col : Collection) (k : String) :
    (notifyKeySubscribersC col k).subsKeys = col.subsKeys := by
  unfold notifyKeySubscribersC
  repeat' split
  all_goals rfl

theorem notifyKeySubscribersC_frame (col : Collection) (k k2 : String) (h : k2 ≠ k) :
    mapGet (notifyKeySubscribersC col k).subsByKey k2 = mapGet col.subsByKey k2 := by
  unfold notifyKeySubscribersC
  repeat' split
  all_goals first
    | rfl
    | exact mapGet_mapSet_ne _ _ _ _ h

theorem notifySizeSubscribersC_entries (col : Collection) :
    (notifySizeSubscribersC col).entries = col.entries := rfl

theorem notifySizeSubscribersC_subsKeys (col : Collection) :
    (notifySizeSubscribersC col).subsKeys = col.subsKeys := rfl

theorem notifySizeSubscribersC_subsByKey (col : Collection) :
    (notifySizeSubscribersC col).subsByKey = col.subsByKey := rfl

theorem notifyKeysSubscribersC_subsSize (col : Collection) :
    (notifyKeysSubscribersC col).subsSize = col.subsSize := rfl

theorem notifyKeysSubscribersC_subsByKey (col : Collection) :
    (notifyKeysSubscribersC col).subsByKey = col.subsByKey := rfl

theorem notifyAllKeySubscribersC_subsSize (col : Collection) :
    (notifyAllKeySubscribersC col).subsSize = col.subsSize := rfl

theorem notifyAllKeySubscribersC_subsKeys (col : Collection) :
    (notifyAllKeySubscribersC col).subsKeys = col.subsKeys := rfl

theorem setC_of_not_has (col : Collection) (k : String) (v : JSVal)
    (hno : mapHas col.entries k = false) :
    setC col k v = notifyKeysSubscribersC (notifySizeSubscribersC
      (notifyKeySubscribersC { col with entries := mapSet col.entries k v } k)) := by
  unfold setC
  rw [hno]
  rfl

theorem setC_of_has (col : Collection) (k : String) (v : JSVal)
    (hhas : mapHas col.entries k = true) :
    setC col k v = notifyKeySubscribersC { col with entries := mapSet col.entries k v } k := by
  unfold setC
  rw [hhas]
  rfl

-- =====================
-- Example instances
-- =====================

/-- example value store of end-to-end example 1: a count field with an
increment action and an action whose body returns the number 7. -/
def exStore : StoreV :=
  { states := JSVal.vObj [("count", JSVal.vNum 0)]
    initialStates := JSVal.vObj [("count", JSVal.vNum 0)]
    actions :=
      [("increment", fun s =>
          match s with
          | JSVal.vObj fs =>
            match mapGet fs "count" with
            | some (JSVal.vNum n) =>
                .ok (JSVal.vObj (mapSet fs "count" (JSVal.vNum (n + 1))), JSVal.vUndefined)
            | _ => .ok (s, JSVal.vUndefined)
          | _ => .ok (s, JSVal.vUndefined)),
       ("seven", fun s => .ok (s, JSVal.vNum 7))]
    subs := [] }

/-- example collection with one entry and an action whose body returns the
number 7 without changing the record. -/
def exCol : Collection :=
  { entries := [("k1", JSVal.vObj [("n", JSVal.vNum 1)])]
    initialMap := []
    actions := [("seven", fun s => .ok (s, JSVal.vNum 7))]
    subsByKey := []
    subsSize := []
    subsKeys := [] }

-- =====================
-- C1: dispatch on an unregistered action name
-- =====================

/-- C1 (counterexample): the claim states that dispatching an unregistered
action name on a value store throws NotFoundError. On the concrete store
of example 1, dispatch of the name missing resolves normally (the guard in
store.tsx line 355 is a plain return), with the state unchanged, so no
error is thrown. -/
theorem c1_counterexample :
    (dispatchV exStore "missing" true).map (fun p => p.1.states) =
      Except.ok (JSVal.vObj [("count", JSVal.vNum 0)]) := rfl

/-- C1 (amended): dispatching an action name that is not registered in the
actions map of a value store is a silent no-op: no error is thrown, the
call resolves with undefined and the store, its state included, is
completely unchanged. -/
theorem c1_theorem (st : StoreV) (name : String) (b : Bool)
    (h : mapGet st.actions name = none) :
    dispatchV st name b = .ok (st, JSVal.vUndefined) := by
  unfold dispatchV
  rw [h]

/-- C1 witness: the amended theorem applied to the concrete store of
example 1 and the unregistered name missing. -/
theorem c1_witness :
    mapGet exStore.actions "missing" = none ∧
    dispatchV exStore "missing" true = .ok (exStore, JSVal.vUndefined) :=
  ⟨rfl, c1_theorem exStore "missing" true rfl⟩

-- =====================
-- C2: deepEqual on the pair (NaN, NaN)
-- =====================

/-- C2 (counterexample): the claim states deepEqual returns false on the
pair (NaN, NaN), following strict identity that does not treat NaN as
equal to itself. The code reaches the non-object branch, which is
Object.is, and Object.is treats NaN as equal to itself, so the result is
not false. -/
theorem c2_counterexample : ¬ (isDeepEqual JSVal.vNaN JSVal.vNaN = false) := by
  decide

/-- C2 (amended): deepEqual compares non-object primitives with Object.is
semantics, so for the input pair (NaN, NaN) it returns true: NaN is
treated as equal to itself. -/
theorem c2_theorem : isDeepEqual JSVal.vNaN JSVal.vNaN = true := rfl

-- =====================
-- C8: the value dispatch resolves with
-- =====================

/-- C8 (counterexample): the claim states every dispatch resolves with
exactly the value the action body returned. On the value store, the action
seven returns the number 7, but dispatch resolves with undefined, because
the dispatch function of store.tsx is typed Promise of void and never
returns the body result. -/
theorem c8_counterexample :
    (dispatchV exStore "seven" true).map (fun p => p.2) = Except.ok JSVal.vUndefined ∧
      JSVal.vUndefined ≠ JSVal.vNum 7 := by
  exact ⟨rfl, by decide⟩

/-- C8 (amended): the collection dispatch resolves with exactly the final
result of the action body, while the value store dispatch always resolves
with undefined, discarding whatever the body returned. -/
theorem c8_theorem (st : StoreV) (col : Collection) (k name : String) (b : Bool) :
    (∀ cb draft ret, mapGet st.actions name = some cb →
      cb st.states = .ok (draft, ret) →
      (dispatchV st name b).map (fun p => p.2) = Except.ok JSVal.vUndefined)
    ∧ (∀ stv cb draft ret, mapGet col.entries k = some stv → isFalsy stv = false →
      mapGet col.actions name = some cb → cb stv = .ok (draft, ret) →
      (dispatchC col k name b).map (fun p => p.2) = Except.ok ret) := by
  constructor
  · intro cb draft ret hcb hrun
    simp [dispatchV, hcb, hrun, Except.map]
  · intro stv cb draft ret hstv htruthy hcb hrun
    simp [dispatchC, hstv, htruthy, hcb, hrun, Except.map]

/-- C8 witness: the amended theorem applied to the concrete store and
collection, on the action seven whose body returns the number 7. -/
theorem c8_witness :
    (dispatchV exStore "seven" true).map (fun p => p.2) = Except.ok JSVal.vUndefined ∧
    (dispatchC exCol "k1" "seven" true).map (fun p => p.2) = Except.ok (JSVal.vNum 7) :=
  ⟨(c8_theorem exStore exCol "k1" "seven" true).1
      _ _ _ rfl rfl,
   (c8_theorem exStore exCol "k1" "seven" true).2
      (JSVal.vObj [("n", JSVal.vNum 1)]) _ _ _ rfl rfl rfl rfl⟩

-- =====================
-- C9: asynchronous dispatch ordering
-- =====================

/-- C9: within an asynchronous dispatch the order is draft, action body,
commit, notify: while the dispatch is suspended at the await, a
synchronous get() still returns the pre-dispatch state and no observer has
been touched; once the promise resolves, the completed draft is committed
and only then does the notification pass run, each observer being compared
against the committed state. -/
theorem c9_theorem (st : StoreV) (body : AsyncBody) :
    getV (startAsyncDispatch st body).1 = getV st
    ∧ (startAsyncDispatch st body).1.subs = st.subs
    ∧ getV (resolveAsyncDispatch (startAsyncDispatch st body).1
        (startAsyncDispatch st body).2 true) = body.post (body.pre (getV st))
    ∧ (resolveAsyncDispatch (startAsyncDispatch st body).1
        (startAsyncDispatch st body).2 true).subs =
          st.subs.map (notifyStep (body.post (body.pre st.states))) :=
  ⟨rfl, rfl, rfl, rfl⟩

-- =====================
-- C7: membership fan-out of set
-- =====================

/-- C7: set of a brand-new key notifies every size observer and every keys
observer exactly once each (assuming their caches are in sync with the
map, which every notification pass maintains), while set of an existing
key leaves the size and keys observer registries completely untouched and
modifies at most the bucket of key-scoped observers for that key. -/
theorem c7_theorem (col : Collection) (k : String) (v : JSVal) :
    (mapHas col.entries k = false →
      (∀ o ∈ col.subsSize, o.lastValue = col.entries.length) →
      (∀ o ∈ col.subsKeys, o.lastValue = mapKeys col.entries) →
      (setC col k v).subsSize =
        col.subsSize.map (fun o => { lastValue := col.entries.length + 1, fired := o.fired + 1 })
      ∧ (setC col k v).subsKeys =
        col.subsKeys.map (fun o => { lastValue := mapKeys col.entries ++ [k], fired := o.fired + 1 }))
    ∧ (mapHas col.entries k = true →
      (setC col k v).subsSize = col.subsSize
      ∧ (setC col k v).subsKeys = col.subsKeys
      ∧ ∀ k2, k2 ≠ k → mapGet (setC col k v).subsByKey k2 = mapGet col.subsByKey k2) := by
  constructor
  · intro hno hs hk
    rw [setC_of_not_has col k v hno]
    constructor
    · rw [notifyKeysSubscribersC_subsSize]
      unfold notifySizeSubscribersC
      dsimp only
      rw [notifyKeySubscribersC_entries, notifyKeySubscribersC_subsSize]
      dsimp only
      rw [length_mapSet_not_has _ _ _ hno]
      apply List.map_congr_left
      intro o ho
      rw [hs o ho, if_neg (Nat.succ_ne_self _)]
    · unfold notifyKeysSubscribersC
      dsimp only
      rw [notifySizeSubscribersC_entries, notifySizeSubscribersC_subsKeys,
        notifyKeySubscribersC_entries, notifyKeySubscribersC_subsKeys]
      dsimp only
      rw [mapKeys_mapSet_not_has _ _ _ hno]
      apply List.map_congr_left
      intro o ho
      rw [hk o ho]
      have hne : isDeepEqual (strArr (mapKeys col.entries ++ [k]))
          (strArr (mapKeys col.entries)) = false :=
        isDeepEqual_strArr_length_ne _ _ (by simp)
      rw [hne]
      simp
  · intro hhas
    rw [setC_of_has col k v hhas]
    refine ⟨?_, ?_, ?_⟩
    · rw [notifyKeySubscribersC_subsSize]
    · rw [notifyKeySubscribersC_subsKeys]
    · intro k2 hk2
      rw [notifyKeySubscribersC_frame _ _ _ hk2]

/-- example collection for the fan-out witness: one entry, one size
observer and one keys observer, both caches in sync with the map. -/
def exColC7 : Collection :=
  { entries := [("a", JSVal.vObj [("n", JSVal.vNum 1)])]
    initialMap := []
    actions := []
    subsByKey := []
    subsSize := [{ lastValue := 1, fired := 0 }]
    subsKeys := [{ lastValue := ["a"], fired := 0 }] }

/-- C7 witness: the fan-out theorem applied to the concrete collection,
once for the brand-new key b and once for the existing key a. -/
theorem c7_witness :
    ((setC exColC7 "b" (JSVal.vObj [("n", JSVal.vNum 2)])).subsSize =
        [{ lastValue := 2, fired := 1 }]
      ∧ (setC exColC7 "b" (JSVal.vObj [("n", JSVal.vNum 2)])).subsKeys =
        [{ lastValue := ["a", "b"], fired := 1 }])
    ∧ ((setC exColC7 "a" (JSVal.vObj [("n", JSVal.vNum 3)])).subsSize = exColC7.subsSize
      ∧ (setC exColC7 "a" (JSVal.vObj [("n", JSVal.vNum 3)])).subsKeys = exColC7.subsKeys
      ∧ mapGet (setC exColC7 "a" (JSVal.vObj [("n", JSVal.vNum 3)])).subsByKey "zz" =
          mapGet exColC7.subsByKey "zz") := by
  have h1 := (c7_theorem exColC7 "b" (JSVal.vObj [("n", JSVal.vNum 2)])).1 rfl
    (by intro o ho; cases ho with
        | head => rfl
        | tail _ h => cases h)
    (by intro o ho; cases ho with
        | head => rfl
        | tail _ h => cases h)
  have h2 := (c7_theorem exColC7 "a" (JSVal.vObj [("n", JSVal.vNum 3)])).2 rfl
  exact ⟨⟨h1.1, h1.2⟩, h2.1, h2.2.1, h2.2.2 "zz" (by decide)⟩

-- =====================
-- C3: remove and the key-scoped observers
-- =====================

theorem removeC_of_has (col : Collection) (k : String)
    (hhas : mapHas col.entries k = true) :
    removeC col k = notifyKeysSubscribersC (notifySizeSubscribersC
      (notifyKeySubscribersC { col with entries := mapDelete col.entries k } k)) := by
  unfold removeC
  rw [hhas]
  rfl

theorem notifyKeySubscribersC_of_absent (col : Collection) (k : String)
    (h : mapGet col.entries k = none) :
    notifyKeySubscribersC col k = col := by
  unfold notifyKeySubscribersC
  cases hb : mapGet col.subsByKey k with
  | none => rfl
  | some bucket => rw [h]

/-- example collection for the remove claim: one entry under the key a,
one key-scoped observer on a, one size observer and one keys observer,
every cache in sync. -/
def exColC3 : Collection :=
  { entries := [("a", JSVal.vObj [("n", JSVal.vNum 1)])]
    initialMap := []
    actions := []
    subsByKey := [("a", [{ selector := fun s => s
                           lastValue := JSVal.vObj [("n", JSVal.vNum 1)]
                           fired := 0 }])]
    subsSize := [{ lastValue := 1, fired := 0 }]
    subsKeys := [{ lastValue := ["a"], fired := 0 }] }

/-- C3 (counterexample): the claim states remove(key) notifies the
key-scoped observers for the removed key. On the concrete collection the
entry under a is deleted, yet the observer registered on a is never
invoked, because notifyKeySubscribers returns early once states.get(key)
is gone; its invocation count is still zero while the size and keys
observers each fired once. -/
theorem c3_counterexample :
    mapGet (removeC exColC3 "a").entries "a" = none
    ∧ (removeC exColC3 "a").subsByKey.map
        (fun kv => (kv.1, kv.2.map (fun o => (o.lastValue, o.fired)))) =
        [("a", [(JSVal.vObj [("n", JSVal.vNum 1)], 0)])]
    ∧ (removeC exColC3 "a").subsSize.map (fun o => o.fired) = [1]
    ∧ (removeC exColC3 "a").subsKeys.map (fun o => o.fired) = [1] :=
  ⟨rfl, rfl, rfl, rfl⟩

/-- C3 (amended): remove(key) on a key present in the map deletes the
entry and notifies the size observers and the keys observers exactly once
each, but the key-scoped observers for that key are left completely
untouched: the per-key pass exits early because the entry no longer
exists, so no key observer callback runs and no key observer cache is
updated. -/
theorem c3_theorem (col : Collection) (k : String) (stv : JSVal)
    (hget : mapGet col.entries k = some stv)
    (hnodup : (mapKeys col.entries).Nodup)
    (hs : ∀ o ∈ col.subsSize, o.lastValue = col.entries.length)
    (hk : ∀ o ∈ col.subsKeys, o.lastValue = mapKeys col.entries) :
    (removeC col k).entries = mapDelete col.entries k
    ∧ (removeC col k).subsByKey = col.subsByKey
    ∧ (removeC col k).subsSize =
        col.subsSize.map (fun o =>
          { lastValue := (mapDelete col.entries k).length, fired := o.fired + 1 })
    ∧ (removeC col k).subsKeys =
        col.subsKeys.map (fun o =>
          { lastValue := mapKeys (mapDelete col.entries k), fired := o.fired + 1 }) := by
  have hhas : mapHas col.entries k = true := mapHas_of_mapGet_some hget
  have hlen : col.entries.length = (mapDelete col.entries k).length + 1 :=
    length_mapDelete_has col.entries k hhas
  have habs : mapGet (mapDelete col.entries k) k = none :=
    mapGet_mapDelete_self_of_nodup col.entries k hnodup
  have hkeynoop :
      notifyKeySubscribersC { col with entries := mapDelete col.entries k } k =
        { col with entries := mapDelete col.entries k } :=
    notifyKeySubscribersC_of_absent _ k habs
  rw [removeC_of_has col k hhas, hkeynoop]
  refine ⟨rfl, rfl, ?_, ?_⟩
  · rw [notifyKeysSubscribersC_subsSize]
    unfold notifySizeSubscribersC
    dsimp only
    apply List.map_congr_left
    intro o ho
    rw [hs o ho]
    rw [if_neg (by omega)]
  · unfold notifyKeysSubscribersC
    dsimp only
    rw [notifySizeSubscribersC_entries, notifySizeSubscribersC_subsKeys]
    dsimp only
    apply List.map_congr_left
    intro o ho
    rw [hk o ho]
    have hne : isDeepEqual (strArr (mapKeys (mapDelete col.entries k)))
        (strArr (mapKeys col.entries)) = false := by
      apply isDeepEqual_strArr_length_ne
      simp only [mapKeys, List.length_map]
      omega
    rw [hne]
    simp

/-- C3 witness: the amended theorem applied to the concrete collection
with one entry and one observer of each kind. -/
theorem c3_witness :
    (removeC exColC3 "a").entries = []
    ∧ (removeC exColC3 "a").subsByKey = exColC3.subsByKey
    ∧ (removeC exColC3 "a").subsSize = [{ lastValue := 0, fired := 1 }]
    ∧ (removeC exColC3 "a").subsKeys = [{ lastValue := [], fired := 1 }] := by
  have h := c3_theorem exColC3 "a" (JSVal.vObj [("n", JSVal.vNum 1)]) rfl
    (by decide)
    (by intro o ho; cases ho with
        | head => rfl
        | tail _ h2 => cases h2)
    (by intro o ho; cases ho with
        | head => rfl
        | tail _ h2 => cases h2)
  exact ⟨h.1, h.2.1, h.2.2.1, h.2.2.2⟩

-- =====================
-- C4: the lastValue invariant of the notification passes
-- =====================

theorem forall2_map_self {α : Type} (f : α → α) (R : α → α → Prop) (l : List α)
    (h : ∀ a ∈ l, R a (f a)) : List.Forall₂ R l (l.map f) := by
  induction l with
  | nil => exact List.Forall₂.nil
  | cons x xs ih =>
    exact List.Forall₂.cons (h x (by simp)) (ih (fun a ha => h a (by simp [ha])))

theorem notifyStep_spec (s : JSVal) (o : Subscriber) :
    (notifyStep s o).selector = o.selector
    ∧ (isDeepEqual (o.selector s) o.lastValue = true → notifyStep s o = o)
    ∧ (isDeepEqual (o.selector s) o.lastValue = false →
        (notifyStep s o).lastValue = o.selector s
        ∧ (notifyStep s o).fired = o.fired + 1) := by
  unfold notifyStep
  by_cases h : isDeepEqual (o.selector s) o.lastValue = true
  · simp [h]
  · simp only [Bool.not_eq_true] at h
    simp [h]

theorem notifyKeyObsStep_spec (s : JSVal) (o : KeyObs) :
    (notifyKeyObsStep s o).selector = o.selector
    ∧ (isDeepEqual (o.selector s) o.lastValue = true → notifyKeyObsStep s o = o)
    ∧ (isDeepEqual (o.selector s) o.lastValue = false →
        (notifyKeyObsStep s o).lastValue = o.selector s
        ∧ (notifyKeyObsStep s o).fired = o.fired + 1) := by
  unfold notifyKeyObsStep
  by_cases h : isDeepEqual (o.selector s) o.lastValue = true
  · simp [h]
  · simp only [Bool.not_eq_true] at h
    simp [h]

/-- example collection for the invariant claim: an entry under a, a
key-scoped observer on the absent key b whose cache is already undefined,
and a key-scoped observer on a whose cache holds the current record. -/
def exColC4 : Collection :=
  { entries := [("a", JSVal.vObj [("n", JSVal.vNum 1)])]
    initialMap := []
    actions := []
    subsByKey := [("b", [{ selector := fun s => s
                           lastValue := JSVal.vUndefined
                           fired := 0 }]),
                  ("a", [{ selector := fun s => s
                           lastValue := JSVal.vObj [("n", JSVal.vNum 1)]
                           fired := 0 }])]
    subsSize := [{ lastValue := 1, fired := 0 }]
    subsKeys := [{ lastValue := ["a"], fired := 0 }] }

theorem clearC_of_nonempty (col : Collection) (h : col.entries ≠ []) :
    clearC col = notifyKeysSubscribersC (notifySizeSubscribersC
      (notifyAllKeySubscribersC { col with entries := [] })) := by
  unfold clearC
  rw [show col.entries.isEmpty = false by simpa [List.isEmpty_iff] using h]
  rfl

theorem resetC_of_nonempty (col : Collection)
    (h : col.entries ≠ [] ∨ col.initialMap ≠ []) :
    resetC col = notifyKeysSubscribersC (notifySizeSubscribersC
      (notifyAllKeySubscribersC { col with entries := col.initialMap })) := by
  have hc : (¬ col.entries.isEmpty = true ∨ ¬ col.initialMap.isEmpty = true) := by
    rcases h with h | h
    · exact Or.inl (by simpa [List.isEmpty_iff] using h)
    · exact Or.inr (by simpa [List.isEmpty_iff] using h)
  unfold resetC
  rw [if_pos hc]

/-- example value store for the invariant claim: one subscriber whose
cache is stale relative to the current state. -/
def exStoreC4 : StoreV :=
  { states := JSVal.vObj [("count", JSVal.vNum 1)]
    initialStates := JSVal.vObj [("count", JSVal.vNum 0)]
    actions := []
    subs := [{ selector := fun s => s
               lastValue := JSVal.vObj [("count", JSVal.vNum 0)]
               fired := 0 }] }

/-- C4 (counterexample): the claim states the invariant holds on every
notification path, clear() and collection reset() included. After clear()
on the concrete collection, and equally after reset(), the observer on the
absent key b has been invoked (fired one) even though its newly computed
value, undefined, is deep-equal to its cached undefined, and the observer
on a has been invoked without its lastValue being updated:
notifyAllKeySubscribers runs every callback unconditionally and never
touches lastValue. -/
theorem c4_counterexample :
    (clearC exColC4).subsByKey.map
        (fun kv => (kv.1, kv.2.map (fun o => (o.lastValue, o.fired)))) =
      [("b", [(JSVal.vUndefined, 1)]), ("a", [(JSVal.vObj [("n", JSVal.vNum 1)], 1)])]
    ∧ (resetC exColC4).subsByKey.map
        (fun kv => (kv.1, kv.2.map (fun o => (o.lastValue, o.fired)))) =
      [("b", [(JSVal.vUndefined, 1)]), ("a", [(JSVal.vObj [("n", JSVal.vNum 1)], 1)])]
    ∧ isDeepEqual JSVal.vUndefined JSVal.vUndefined = true :=
  ⟨rfl, rfl, rfl⟩

/-- C4 (amended): on the deep-equality guarded notification paths, the
value store pass, the per-key pass over a present truthy entry, the size
pass and the keys pass, each observer is invoked iff its newly computed
selector value is not deep-equal (for the size pass, not strictly equal)
to its cached lastValue, and lastValue is updated to the new value exactly
when the callback fires; the bulk path used by clear() on a non-empty map
and by collection reset() instead invokes every key-scoped callback
unconditionally without comparing or updating lastValue. -/
theorem c4_theorem (st : StoreV) (col : Collection) (k : String) (stv : JSVal)
    (bucket : List KeyObs)
    (hb : mapGet col.subsByKey k = some bucket)
    (hstv : mapGet col.entries k = some stv)
    (ht : isFalsy stv = false) :
    List.Forall₂ (fun o o2 =>
        o2.selector = o.selector
        ∧ (isDeepEqual (o.selector st.states) o.lastValue = true → o2 = o)
        ∧ (isDeepEqual (o.selector st.states) o.lastValue = false →
            o2.lastValue = o.selector st.states ∧ o2.fired = o.fired + 1))
      st.subs (notifyV st).subs
    ∧ List.Forall₂ (fun o o2 =>
        o2.selector = o.selector
        ∧ (isDeepEqual (o.selector stv) o.lastValue = true → o2 = o)
        ∧ (isDeepEqual (o.selector stv) o.lastValue = false →
            o2.lastValue = o.selector stv ∧ o2.fired = o.fired + 1))
      bucket ((mapGet (notifyKeySubscribersC col k).subsByKey k).getD [])
    ∧ List.Forall₂ (fun o o2 =>
        (col.entries.length = o.lastValue → o2 = o)
        ∧ (col.entries.length ≠ o.lastValue →
            o2.lastValue = col.entries.length ∧ o2.fired = o.fired + 1))
      col.subsSize (notifySizeSubscribersC col).subsSize
    ∧ List.Forall₂ (fun o o2 =>
        (isDeepEqual (strArr (mapKeys col.entries)) (strArr o.lastValue) = true → o2 = o)
        ∧ (isDeepEqual (strArr (mapKeys col.entries)) (strArr o.lastValue) = false →
            o2.lastValue = mapKeys col.entries ∧ o2.fired = o.fired + 1))
      col.subsKeys (notifyKeysSubscribersC col).subsKeys
    ∧ (col.entries ≠ [] →
        (clearC col).subsByKey =
          col.subsByKey.map (fun kv =>
            (kv.1, kv.2.map (fun o => { o with fired := o.fired + 1 }))))
    ∧ ((col.entries ≠ [] ∨ col.initialMap ≠ []) →
        (resetC col).subsByKey =
          col.subsByKey.map (fun kv =>
            (kv.1, kv.2.map (fun o => { o with fired := o.fired + 1 })))) := by
  refine ⟨?_, ?_, ?_, ?_, ?_, ?_⟩
  · exact forall2_map_self _ _ _ (fun o _ => notifyStep_spec st.states o)
  · have hsub : (notifyKeySubscribersC col k).subsByKey =
        mapSet col.subsByKey k (bucket.map (notifyKeyObsStep stv)) := by
      unfold notifyKeySubscribersC
      rw [hb, hstv]
      dsimp only
      rw [ht]
      rfl
    rw [hsub, mapGet_mapSet_self]
    exact forall2_map_self _ _ _ (fun o _ => notifyKeyObsStep_spec stv o)
  · apply forall2_map_self
    intro o _
    by_cases hcond : col.entries.length = o.lastValue
    · refine ⟨fun _ => ?_, fun hne => absurd hcond hne⟩
      simp [hcond]
    · refine ⟨fun heq => absurd heq hcond, fun _ => ?_⟩
      simp [hcond]
  · apply forall2_map_self
    intro o _
    by_cases hcond :
        isDeepEqual (strArr (mapKeys col.entries)) (strArr o.lastValue) = true
    · refine ⟨fun _ => ?_, fun hne => ?_⟩
      · simp [hcond]
      · rw [hcond] at hne
        cases hne
    · have hcond2 :
          isDeepEqual (strArr (mapKeys col.entries)) (strArr o.lastValue) = false := by
        simpa using hcond
      refine ⟨fun heq => absurd heq hcond, fun _ => ?_⟩
      simp [hcond2]
  · intro hne
    rw [clearC_of_nonempty col hne, notifyKeysSubscribersC_subsByKey,
      notifySizeSubscribersC_subsByKey]
    rfl
  · intro hne
    rw [resetC_of_nonempty col hne, notifyKeysSubscribersC_subsByKey,
      notifySizeSubscribersC_subsByKey]
    rfl

/-- C4 witness: the amended theorem applied to the concrete store with one
stale subscriber and to the concrete collection, covering the observer
bucket on the present key a, the size and keys observers, and the bulk
clear() and reset() paths with the non-emptiness hypotheses discharged. -/
theorem c4_witness :
    List.Forall₂ (fun o o2 =>
        o2.selector = o.selector
        ∧ (isDeepEqual (o.selector exStoreC4.states) o.lastValue = true → o2 = o)
        ∧ (isDeepEqual (o.selector exStoreC4.states) o.lastValue = false →
            o2.lastValue = o.selector exStoreC4.states ∧ o2.fired = o.fired + 1))
      exStoreC4.subs (notifyV exStoreC4).subs
    ∧ List.Forall₂ (fun o o2 =>
        o2.selector = o.selector
        ∧ (isDeepEqual (o.selector (JSVal.vObj [("n", JSVal.vNum 1)])) o.lastValue = true → o2 = o)
        ∧ (isDeepEqual (o.selector (JSVal.vObj [("n", JSVal.vNum 1)])) o.lastValue = false →
            o2.lastValue = o.selector (JSVal.vObj [("n", JSVal.vNum 1)])
            ∧ o2.fired = o.fired + 1))
      [{ selector := fun s => s
         lastValue := JSVal.vObj [("n", JSVal.vNum 1)]
         fired := 0 }]
      ((mapGet (notifyKeySubscribersC exColC4 "a").subsByKey "a").getD [])
    ∧ List.Forall₂ (fun o o2 =>
        (exColC4.entries.length = o.lastValue → o2 = o)
        ∧ (exColC4.entries.length ≠ o.lastValue →
            o2.lastValue = exColC4.entries.length ∧ o2.fired = o.fired + 1))
      exColC4.subsSize (notifySizeSubscribersC exColC4).subsSize
    ∧ List.Forall₂ (fun o o2 =>
        (isDeepEqual (strArr (mapKeys exColC4.entries)) (strArr o.lastValue) = true → o2 = o)
        ∧ (isDeepEqual (strArr (mapKeys exColC4.entries)) (strArr o.lastValue) = false →
            o2.lastValue = mapKeys exColC4.entries ∧ o2.fired = o.fired + 1))
      exColC4.subsKeys (notifyKeysSubscribersC exColC4).subsKeys
    ∧ (clearC exColC4).subsByKey =
        exColC4.subsByKey.map (fun kv =>
          (kv.1, kv.2.map (fun o => { o with fired := o.fired + 1 })))
    ∧ (resetC exColC4).subsByKey =
        exColC4.subsByKey.map (fun kv =>
          (kv.1, kv.2.map (fun o => { o with fired := o.fired + 1 }))) := by
  have h := c4_theorem exStoreC4 exColC4 "a" (JSVal.vObj [("n", JSVal.vNum 1)])
    [{ selector := fun s => s
       lastValue := JSVal.vObj [("n", JSVal.vNum 1)]
       fired := 0 }] rfl rfl rfl
  exact ⟨h.1, h.2.1, h.2.2.1, h.2.2.2.1,
    h.2.2.2.2.1 (List.cons_ne_nil _ _),
    h.2.2.2.2.2 (Or.inl (List.cons_ne_nil _ _))⟩

-- =====================
-- C10: observer registered on an absent key
-- =====================

/-- empty example collection for the absent-key observer claim. -/
def exColC10 : Collection :=
  { entries := []
    initialMap := []
    actions := []
    subsByKey := []
    subsSize := []
    subsKeys := [] }

/-- C10 (counterexample): the claim states a subsequent set of the key to
any record fires the callback of an observer registered while the key was
absent. With a selector that returns undefined on the new record, the new
selector value is deep-equal to the cached undefined, so the callback is
suppressed: its invocation count is still zero after the set. -/
theorem c10_counterexample :
    ((mapGet (setC (subscribeToKeyC exColC10 "a" (fun _ => JSVal.vUndefined)) "a"
        (JSVal.vObj [("n", JSVal.vNum 1)])).subsByKey "a").getD []).map
      (fun o => o.fired) = [0] := rfl

/-- C10 (amended): registering a key-scoped observer on an absent key
caches undefined as its lastValue whatever the selector is, without the
selector being applied to any record; a subsequent set of that key to an
object record fires the callback exactly when the selector value on the
new record is not deep-equal to undefined, and in particular the default
identity selector always fires, since no object record is deep-equal to
undefined. -/
theorem c10_theorem (col : Collection) (k : String) (sel : JSVal → JSVal)
    (fields : List (String × JSVal))
    (habs : mapGet col.entries k = none)
    (hnob : mapGet col.subsByKey k = none) :
    (mkKeyObs col k sel).lastValue = JSVal.vUndefined
    ∧ ((mapGet (setC (subscribeToKeyC col k sel) k (JSVal.vObj fields)).subsByKey k).getD []).map
        (fun o => (o.lastValue, o.fired)) =
      (if isDeepEqual (sel (JSVal.vObj fields)) JSVal.vUndefined then
        [(JSVal.vUndefined, 0)]
      else [(sel (JSVal.vObj fields), 1)])
    ∧ ((mapGet (setC (subscribeToKeyC col k (fun s => s)) k (JSVal.vObj fields)).subsByKey k).getD []).map
        (fun o => (o.lastValue, o.fired)) = [(JSVal.vObj fields, 1)] := by
  have hmk : ∀ f : JSVal → JSVal, (mkKeyObs col k f).lastValue = JSVal.vUndefined := by
    intro f
    unfold mkKeyObs
    rw [habs]
  have hbucket : ∀ f : JSVal → JSVal, ∀ v : JSVal,
      (mapGet (setC (subscribeToKeyC col k f) k (JSVal.vObj fields)).subsByKey k).getD [] =
        [notifyKeyObsStep (JSVal.vObj fields) (mkKeyObs col k f)] := by
    intro f v
    have hsubbed : (subscribeToKeyC col k f).subsByKey =
        mapSet col.subsByKey k [mkKeyObs col k f] := by
      unfold subscribeToKeyC
      rw [hnob]
      rfl
    have hentries : (subscribeToKeyC col k f).entries = col.entries := rfl
    have hno : mapHas (subscribeToKeyC col k f).entries k = false := by
      rw [hentries]
      simp [mapHas, habs]
    rw [setC_of_not_has _ _ _ hno, notifyKeysSubscribersC_subsByKey,
      notifySizeSubscribersC_subsByKey]
    unfold notifyKeySubscribersC
    rw [hentries, hsubbed, mapGet_mapSet_self, mapGet_mapSet_self]
    dsimp only
    rw [show isFalsy (JSVal.vObj fields) = false from rfl]
    simp [mapGet_mapSet_self]
  refine ⟨hmk sel, ?_, ?_⟩
  · rw [hbucket sel (JSVal.vObj fields)]
    by_cases hd : isDeepEqual (sel (JSVal.vObj fields)) JSVal.vUndefined = true
    · simp [notifyKeyObsStep, mkKeyObs, habs, hd]
    · have hd2 : isDeepEqual (sel (JSVal.vObj fields)) JSVal.vUndefined = false := by
        simpa using hd
      simp [notifyKeyObsStep, mkKeyObs, habs, hd2]
  · rw [hbucket (fun s => s) (JSVal.vObj fields)]
    have hd2 : isDeepEqual (JSVal.vObj fields) JSVal.vUndefined = false := rfl
    simp [notifyKeyObsStep, mkKeyObs, habs, hd2]

/-- C10 witness: the amended theorem applied to the empty collection, the
key a, a selector returning the number 5 and the record with one field n. -/
theorem c10_witness :
    (mkKeyObs exColC10 "a" (fun _ => JSVal.vNum 5)).lastValue = JSVal.vUndefined
    ∧ ((mapGet (setC (subscribeToKeyC exColC10 "a" (fun _ => JSVal.vNum 5)) "a"
          (JSVal.vObj [("n", JSVal.vNum 1)])).subsByKey "a").getD []).map
        (fun o => (o.lastValue, o.fired)) = [(JSVal.vNum 5, 1)]
    ∧ ((mapGet (setC (subscribeToKeyC exColC10 "a" (fun s => s)) "a"
          (JSVal.vObj [("n", JSVal.vNum 1)])).subsByKey "a").getD []).map
        (fun o => (o.lastValue, o.fired)) = [(JSVal.vObj [("n", JSVal.vNum 1)], 1)] :=
  c10_theorem exColC10 "a" (fun _ => JSVal.vNum 5) [("n", JSVal.vNum 1)] rfl rfl

-- =====================
-- Heap lemmas
-- =====================

theorem hget_append_lt (h rest : Heap) (a : Nat) (ha : a < h.length) :
    hget (h ++ rest) a = hget h a :=
  List.getD_append _ _ _ _ ha

theorem hget_append_self (h : Heap) (o : HObj) : hget (h ++ [o]) h.length = o := by
  unfold hget
  rw [List.getD_append_right _ _ _ _ (le_refl _)]
  simp

theorem hget_set_ne (h : Heap) (b : Nat) (o : HObj) (a : Nat) (hne : a ≠ b) :
    hget (hsetObj h b o) a = hget h a := by
  unfold hget hsetObj
  rw [List.getD_eq_getElem?_getD, List.getD_eq_getElem?_getD,
    List.getElem?_set_ne (Ne.symm hne)]

/-- references reachable in one step from a heap value stay below a bound. -/
def RefBelow : HVal → Nat → Prop
  | .prim _, _ => True
  | .ref a, n => a < n

/-- well-formedness of the portion of a heap below a bound: every
reference stored in an object at an address below the bound points below
the bound as well. -/
def WfBelow (h : Heap) (n : Nat) : Prop :=
  ∀ a, a < n → ∀ kv ∈ hget h a, ∀ r, kv.2 = HVal.ref r → r < n

/-- frame property of reification: two heaps that agree below a
well-formed bound reify every value whose references sit below the bound
to the same structural value, at every recursion budget. -/
theorem resolve_frame (fuel : Nat) (h h2 : Heap) (n : Nat)
    (hag : ∀ b, b < n → hget h2 b = hget h b) (hwf : WfBelow h n) :
    (∀ v, RefBelow v n → resolveH fuel h2 v = resolveH fuel h v)
    ∧ (∀ o : HObj, (∀ kv ∈ o, RefBelow kv.2 n) →
        resolveFields fuel h2 o = resolveFields fuel h o) := by
  induction fuel with
  | zero =>
    constructor
    · intro v _
      simp [resolveH]
    · intro o _
      cases o with
      | nil => simp [resolveFields]
      | cons kv rest =>
        obtain ⟨k, v⟩ := kv
        simp [resolveFields, resolveH]
  | succ fuel ih =>
    have hval : ∀ v, RefBelow v n → resolveH (fuel + 1) h2 v = resolveH (fuel + 1) h v := by
      intro v hv
      cases v with
      | prim p => simp [resolveH]
      | ref a =>
        have ha : a < n := hv
        have hfields : resolveFields fuel h2 (hget h a) = resolveFields fuel h (hget h a) := by
          apply ih.2
          intro kv hkv
          cases hkv2 : kv.2 with
          | prim p => exact True.intro
          | ref r => exact hwf a ha kv hkv r hkv2
        simp only [resolveH]
        rw [hag a ha, hfields]
    refine ⟨hval, ?_⟩
    intro o
    induction o with
    | nil =>
      intro _
      simp [resolveFields]
    | cons kv rest iho =>
      intro ho
      obtain ⟨k, v⟩ := kv
      simp only [resolveFields]
      rw [hval v (ho (k, v) (by simp)), iho (fun kv2 hkv2 => ho kv2 (by simp [hkv2]))]

theorem refs_below_of_wf (h : Heap) (a0 n : Nat) (hwf : WfHeap h) (hn : h.length ≤ n) :
    ∀ kv ∈ hget h a0, RefBelow kv.2 n := by
  intro kv hkv
  cases hr : kv.2 with
  | prim p => exact True.intro
  | ref r => exact lt_of_lt_of_le (hwf a0 kv hkv r hr) hn

theorem wfBelow_construction (h : Heap) (a0 : Nat) (hwf : WfHeap h) :
    WfBelow (h ++ [hget h a0] ++ [hget h a0]) (h.length + 2) := by
  intro a ha kv hkv r hr
  by_cases h1 : a < h.length
  · rw [hget_append_lt _ _ _ (by simp; omega)] at hkv
    rw [hget_append_lt _ _ _ h1] at hkv
    have := hwf a kv hkv r hr
    omega
  · have hcases : hget (h ++ [hget h a0] ++ [hget h a0]) a = hget h a0 := by
      rcases Nat.lt_or_ge a (h.length + 1) with hlt | hge
      · have ha2 : a = h.length := by omega
        subst ha2
        rw [hget_append_lt _ _ _ (by simp), hget_append_self]
      · have ha2 : a = h.length + 1 := by omega
        subst ha2
        have hlen2 : (h ++ [hget h a0]).length = h.length + 1 := by simp
        rw [← hlen2, hget_append_self]
    rw [hcases] at hkv
    have := hwf a0 kv hkv r hr
    omega

theorem createStoreH_spec (h : Heap) (a0 : Nat) :
    (createStoreH h a0).heap = h ++ [hget h a0] ++ [hget h a0]
    ∧ (createStoreH h a0).initialAddr = h.length
    ∧ (createStoreH h a0).currentAddr = h.length + 1 := by
  unfold createStoreH shallowCopy halloc
  refine ⟨?_, rfl, by simp⟩
  dsimp only
  rw [hget_append_self]

theorem dispatchH_cases (st : HStore) (b : HBody) :
    (dispatchH st b).1.heap =
        (b (st.heap ++ [hget st.heap st.currentAddr]) st.heap.length).1
    ∧ (dispatchH st b).1.initialAddr = st.initialAddr
    ∧ (dispatchH st b).2 =
        (b (st.heap ++ [hget st.heap st.currentAddr]) st.heap.length).2
    ∧ ((b (st.heap ++ [hget st.heap st.currentAddr]) st.heap.length).2 ≠ none →
        (dispatchH st b).1.currentAddr = st.currentAddr) := by
  unfold dispatchH shallowCopy halloc
  dsimp only
  cases hres : b (st.heap ++ [hget st.heap st.currentAddr]) st.heap.length with
  | mk h2 err =>
    cases err with
    | none => exact ⟨rfl, rfl, rfl, fun hne => absurd rfl hne⟩
    | some e => exact ⟨rfl, rfl, rfl, fun _ => rfl⟩

theorem dispatchH_preserves (st : HStore) (b : HBody) (hb : DraftOnly b) :
    st.heap.length ≤ (dispatchH st b).1.heap.length
    ∧ (∀ a, a < st.heap.length → hget (dispatchH st b).1.heap a = hget st.heap a)
    ∧ (dispatchH st b).1.initialAddr = st.initialAddr := by
  obtain ⟨hheap, hinit, -, -⟩ := dispatchH_cases st b
  obtain ⟨hlen, hframe⟩ := hb (st.heap ++ [hget st.heap st.currentAddr]) st.heap.length
  refine ⟨?_, ?_, hinit⟩
  · rw [hheap]
    calc st.heap.length ≤ (st.heap ++ [hget st.heap st.currentAddr]).length := by simp
      _ ≤ _ := hlen
  · intro a ha
    rw [hheap, hframe a (by simp; omega) (by omega), hget_append_lt _ _ _ ha]

theorem dispatchSeq_preserves (bodies : List HBody) :
    ∀ st : HStore, (∀ b ∈ bodies, DraftOnly b) →
    st.heap.length ≤ (dispatchSeq st bodies).heap.length
    ∧ (∀ a, a < st.heap.length → hget (dispatchSeq st bodies).heap a = hget st.heap a)
    ∧ (dispatchSeq st bodies).initialAddr = st.initialAddr := by
  induction bodies with
  | nil => exact fun st _ => ⟨le_refl _, fun a _ => rfl, rfl⟩
  | cons b bs ih =>
    intro st hb
    have h1 := dispatchH_preserves st b (hb b (by simp))
    have h2 := ih (dispatchH st b).1 (fun x hx => hb x (by simp [hx]))
    refine ⟨le_trans h1.1 h2.1, ?_, h2.2.2.trans h1.2.2⟩
    intro a ha
    exact (h2.2.1 a (lt_of_lt_of_le ha h1.1)).trans (h1.2.1 a ha)

-- =====================
-- C5: reset and the initial snapshot
-- =====================

/-- example heap: the caller record at address 1 is a record with one
nested sub-object, the object at address 0, giving the value a maps to x
maps to 0. -/
def exHeapC5 : Heap := [[("x", HVal.prim (JSVal.vNum 0))], [("a", HVal.ref 0)]]

/-- action body of s.a.x = 1: it follows the reference stored in the field
a of its draft and mutates the shared nested object in place. -/
def exBodyNested : HBody := fun h d =>
  match mapGet (hget h d) "a" with
  | some (HVal.ref t) => (hsetObj h t (mapSet (hget h t) "x" (HVal.prim (JSVal.vNum 1))), none)
  | _ => (h, none)

/-- action body of s.b = 2: it assigns a top-level field of its own draft
object and touches nothing else. -/
def exBodyTop : HBody := fun h d =>
  (hsetObj h d (mapSet (hget h d) "b" (HVal.prim (JSVal.vNum 2))), none)

theorem exBodyTop_draftOnly : DraftOnly exBodyTop := by
  intro h d
  constructor
  · simp [exBodyTop, hsetObj]
  · intro a ha hne
    exact hget_set_ne h d _ a hne

theorem exHeapC5_wf : WfHeap exHeapC5 := by
  intro a kv hkv r hr
  match a with
  | 0 =>
    have h0 : hget exHeapC5 0 = [("x", HVal.prim (JSVal.vNum 0))] := rfl
    rw [h0] at hkv
    cases hkv with
    | head => simp at hr
    | tail _ h2 => cases h2
  | 1 =>
    have h1 : hget exHeapC5 1 = [("a", HVal.ref 0)] := rfl
    rw [h1] at hkv
    cases hkv with
    | head =>
      simp at hr
      subst hr
      show (0 : Nat) < 2
      decide
    | tail _ h2 => cases h2
  | n + 2 =>
    have h2 : hget exHeapC5 (n + 2) = [] := rfl
    rw [h2] at hkv
    cases hkv

/-- C5 (counterexample): the claim states reset restores the state to the
initial record for every sequence of dispatched actions, including actions
mutating nested sub-objects. On the concrete store over the record a maps
to x maps to 0, dispatching the action s.a.x = 1 and then resetting yields
a state where x is 1, not the construction-time 0: the initial snapshot is
only a shallow spread, so it shares the nested object the action mutated
in place. -/
theorem c5_counterexample :
    getH 5 (createStoreH exHeapC5 1) =
      some (JSVal.vObj [("a", JSVal.vObj [("x", JSVal.vNum 0)])])
    ∧ getH 5 (resetH (dispatchSeq (createStoreH exHeapC5 1) [exBodyNested])) =
      some (JSVal.vObj [("a", JSVal.vObj [("x", JSVal.vNum 1)])])
    ∧ JSVal.vObj [("a", JSVal.vObj [("x", JSVal.vNum 1)])] ≠
      JSVal.vObj [("a", JSVal.vObj [("x", JSVal.vNum 0)])] := by
  refine ⟨?_, ?_, by decide⟩
  · simp [getH, createStoreH, shallowCopy, halloc, hget, exHeapC5,
      resolveH, resolveFields]
  · simp [getH, createStoreH, resetH, dispatchSeq, dispatchH, shallowCopy, halloc,
      hget, hsetObj, exHeapC5, exBodyNested, mapGet, mapSet, resolveH, resolveFields]

/-- C5 (amended): reset restores the state observable through get() to the
construction-time value after any sequence of dispatched actions that
write only their own draft object (top-level field assignments); the
initial snapshot is only a shallow spread of the caller record, so an
action that mutates a shared nested sub-object in place corrupts it, and
reset then reproduces the mutated value instead of the construction-time
one. -/
theorem c5_theorem (h : Heap) (a0 : Nat) (bodies : List HBody) (fuel : Nat)
    (hwf : WfHeap h) (hbs : ∀ b ∈ bodies, DraftOnly b) :
    getH fuel (resetH (dispatchSeq (createStoreH h a0) bodies)) =
      getH fuel (createStoreH h a0) := by
  obtain ⟨hheap, hinit, hcur⟩ := createStoreH_spec h a0
  set o := hget h a0 with hodef
  set st0 := createStoreH h a0 with hst0
  have hn0 : st0.heap.length = h.length + 2 := by rw [hheap]; simp
  obtain ⟨hlen, hagree, hinitF⟩ := dispatchSeq_preserves bodies st0 hbs
  set stF := dispatchSeq st0 bodies with hstF
  have hia : stF.initialAddr = h.length := by rw [hinitF, hinit]
  have hinitObj : hget stF.heap stF.initialAddr = o := by
    rw [hia, hagree h.length (by omega), hheap,
      hget_append_lt _ _ _ (by simp)]
    exact hget_append_self h o
  have hcurObj : hget st0.heap (h.length + 1) = o := by
    rw [hheap]
    have hlen2 : (h ++ [o]).length = h.length + 1 := by simp
    rw [← hlen2, hget_append_self]
  cases fuel with
  | zero => simp [getH, resolveH]
  | succ fuel =>
    have hLhs : getH (fuel + 1) (resetH stF) =
        (resolveFields fuel (stF.heap ++ [o]) o).map JSVal.vObj := by
      unfold getH resetH shallowCopy halloc
      dsimp only
      simp only [resolveH]
      rw [hinitObj, hget_append_self]
    have hRhs : getH (fuel + 1) st0 =
        (resolveFields fuel st0.heap o).map JSVal.vObj := by
      unfold getH
      simp only [resolveH]
      rw [hcur, hcurObj]
    have hframe := (resolve_frame fuel st0.heap (stF.heap ++ [o]) (h.length + 2)
      (fun b hb => by
        rw [hget_append_lt _ _ _ (by omega)]
        exact hagree b (by omega))
      (by rw [hheap]; exact wfBelow_construction h a0 hwf)).2 o
      (refs_below_of_wf h a0 _ hwf (by omega))
    rw [hLhs, hRhs, hframe]

/-- C5 witness: the amended theorem applied to the concrete heap, the
record at address 1, one dispatch of the top-level assignment s.b = 2 and
the recursion budget 5. -/
theorem c5_witness :
    WfHeap exHeapC5
    ∧ getH 5 (resetH (dispatchSeq (createStoreH exHeapC5 1) [exBodyTop])) =
        getH 5 (createStoreH exHeapC5 1) :=
  ⟨exHeapC5_wf,
   c5_theorem exHeapC5 1 [exBodyTop] 5 exHeapC5_wf (by
      intro b hb
      cases hb with
      | head => exact exBodyTop_draftOnly
      | tail _ h2 => cases h2)⟩

-- =====================
-- C6: failing dispatch and the draft
-- =====================

/-- action body of s.a.x = 1 followed by a throw: it mutates the shared
nested object in place and then raises. -/
def exBodyThrow : HBody := fun h d =>
  match mapGet (hget h d) "a" with
  | some (HVal.ref t) =>
      (hsetObj h t (mapSet (hget h t) "x" (HVal.prim (JSVal.vNum 1))), some "boom")
  | _ => (h, some "boom")

/-- action body that throws without touching the heap. -/
def exBodyFail : HBody := fun h _ => (h, some "fail")

theorem exBodyFail_draftOnly : DraftOnly exBodyFail :=
  fun _ _ => ⟨le_refl _, fun _ _ _ => rfl⟩

/-- C6 (counterexample): the claim states that when the action body
throws, the error propagates, the draft is not committed, and the state
observable through get() is unchanged, nested sub-objects included. On
the concrete store, the body mutates the nested object and then throws:
the error does propagate and the current address is unchanged, yet get()
now reads x as 1 instead of the pre-dispatch 0, because the draft was only
a shallow spread and the mutation hit the shared nested object. -/
theorem c6_counterexample :
    (dispatchH (createStoreH exHeapC5 1) exBodyThrow).2 = some "boom"
    ∧ (dispatchH (createStoreH exHeapC5 1) exBodyThrow).1.currentAddr =
        (createStoreH exHeapC5 1).currentAddr
    ∧ getH 5 (dispatchH (createStoreH exHeapC5 1) exBodyThrow).1 =
        some (JSVal.vObj [("a", JSVal.vObj [("x", JSVal.vNum 1)])])
    ∧ getH 5 (createStoreH exHeapC5 1) =
        some (JSVal.vObj [("a", JSVal.vObj [("x", JSVal.vNum 0)])])
    ∧ JSVal.vObj [("a", JSVal.vObj [("x", JSVal.vNum 1)])] ≠
        JSVal.vObj [("a", JSVal.vObj [("x", JSVal.vNum 0)])] := by
  refine ⟨rfl, rfl, ?_, ?_, by decide⟩
  · simp [getH, createStoreH, dispatchH, shallowCopy, halloc, hget, hsetObj,
      exHeapC5, exBodyThrow, mapGet, mapSet, resolveH, resolveFields]
  · simp [getH, createStoreH, shallowCopy, halloc, hget, exHeapC5,
      resolveH, resolveFields]

/-- C6 (amended): when the action body of a dispatch throws, the error
propagates to the caller unmodified and the draft is not committed: the
current record address is unchanged, and if the body wrote only its own
draft object, the state observable through get() is unchanged as well;
in-place mutations of shared nested sub-objects performed before the
throw, however, stay visible through get(), since the draft is only a
shallow spread of the current record. -/
theorem c6_theorem (h : Heap) (a0 : Nat) (b : HBody) (e : String) (fuel : Nat)
    (hwf : WfHeap h) (hb : DraftOnly b)
    (herr : (dispatchH (createStoreH h a0) b).2 = some e) :
    (dispatchH (createStoreH h a0) b).1.currentAddr = (createStoreH h a0).currentAddr
    ∧ getH fuel (dispatchH (createStoreH h a0) b).1 = getH fuel (createStoreH h a0) := by
  obtain ⟨hheap, hinit, hcur⟩ := createStoreH_spec h a0
  set o := hget h a0 with hodef
  set st0 := createStoreH h a0 with hst0
  obtain ⟨hdheap, hdinit, hderr, hdcur⟩ := dispatchH_cases st0 b
  have hcurEq : (dispatchH st0 b).1.currentAddr = st0.currentAddr := by
    apply hdcur
    rw [← hderr, herr]
    simp
  refine ⟨hcurEq, ?_⟩
  have hn0 : st0.heap.length = h.length + 2 := by rw [hheap]; simp
  obtain ⟨hblen, hbframe⟩ := hb (st0.heap ++ [hget st0.heap st0.currentAddr]) st0.heap.length
  have hagree : ∀ a2, a2 < h.length + 2 →
      hget (dispatchH st0 b).1.heap a2 = hget st0.heap a2 := by
    intro a2 ha2
    rw [hdheap, hbframe a2 (by simp; omega) (by omega),
      hget_append_lt _ _ _ (by omega)]
  have hframe := (resolve_frame fuel st0.heap (dispatchH st0 b).1.heap (h.length + 2)
      hagree (by rw [hheap]; exact wfBelow_construction h a0 hwf)).1
      (HVal.ref st0.currentAddr)
      (by show st0.currentAddr < h.length + 2; rw [hcur]; omega)
  unfold getH
  rw [hcurEq, hframe]

/-- C6 witness: the amended theorem applied to the concrete heap, the
record at address 1 and the draft-only body that throws fail. -/
theorem c6_witness :
    (dispatchH (createStoreH exHeapC5 1) exBodyFail).1.currentAddr =
      (createStoreH exHeapC5 1).currentAddr
    ∧ getH 5 (dispatchH (createStoreH exHeapC5 1) exBodyFail).1 =
      getH 5 (createStoreH exHeapC5 1) :=
  c6_theorem exHeapC5 1 exBodyFail "fail" 5 exHeapC5_wf exBodyFail_draftOnly rfl

end Finalstore
